import Mathlib

/-!
Verification development for the File-Manager repository (src/FileManager.py).

The file embeds, as executable Lean definitions, the parts of the program that
the checked properties talk about:

* the glob matcher used through Python's `fnmatch.fnmatch` (tokenizer for
  `*`, `?`, `[...]` classes following `fnmatch.translate`, plus a matcher),
  together with a declarative wildcard semantics `TokSem`;
* the listing refresh of `UltraAdvancedFileDialog._refresh_listing`;
* the background scanner `start_scan` (non-recursive `fs.ls` branch; the
  recursive `fs.walk` branch applies the same per-name decision);
* the metadata cache interaction of `FileManagerTab._populate` and the
  watchdog handler `DirChangeHandler.on_any_event`;
* the asynchronous `_copy` operation (`shutil.copy2`) as scheduled by
  `FileManagerTab._copy`;
* `UltraAdvancedFileDialog.delete_command`.

Filesystem effects (`os.listdir`, `os.stat`, `os.path.getsize`,
`os.path.getmtime`, `re.search`, `fuzz.partial_ratio`) are passed in as
explicit function arguments returning `Except Unit` values, so that a raised
exception is an explicit `.error`.  Modification times and sizes are modelled
as naturals.  POSIX path conventions are used (`os.path.join`,
`os.path.basename` with separator `/`; `os.path.normcase` is the identity).
-/

/-! ## Glob matching (Python `fnmatch`)

`fnmatch.fnmatch(name, pat)` translates `pat` to a regex via
`fnmatch.translate` and matches the whole name.  We embed this as a tokenizer
mirroring `translate`'s scan of the pattern (`*`, `?`, `[...]` with optional
leading `!` negation and a leading `]` literal, an unterminated `[` being a
literal) and a matcher over the token list.  Character classes support
ranges `a-b` (a `-` at either end of the class body is a literal); an empty
range such as `b-a` matches nothing, exactly as `translate`'s
empty-range removal produces. -/

/-- Scan a class body up to the closing bracket: returns the content and the
remainder of the pattern, or `none` when the bracket is unterminated. -/
def extractUntilRB : List Char → Option (List Char × List Char)
  | [] => none
  | ']' :: rest => some ([], rest)
  | c :: rest =>
    match extractUntilRB rest with
    | none => none
    | some (content, tail) => some (c :: content, tail)

/-- Scan a character class after the opening `[`: an optional `!` negates,
and a `]` immediately after (the optional `!`) belongs to the class body.
Mirrors the index scan in `fnmatch.translate`. -/
def extractClass : List Char → Option (Bool × List Char × List Char)
  | '!' :: ']' :: ps =>
    match extractUntilRB ps with
    | none => none
    | some (content, rest) => some (true, ']' :: content, rest)
  | '!' :: ps =>
    match extractUntilRB ps with
    | none => none
    | some (content, rest) => some (true, content, rest)
  | ']' :: ps =>
    match extractUntilRB ps with
    | none => none
    | some (content, rest) => some (false, ']' :: content, rest)
  | ps =>
    match extractUntilRB ps with
    | none => none
    | some (content, rest) => some (false, content, rest)

/-- Membership of a character in a class body: `x-y` between two characters
is a code-point range, anything else is a literal. -/
def inClassItems : List Char → Char → Bool
  | [], _ => false
  | a :: '-' :: b :: rest, c =>
    (decide (a.val.toNat ≤ c.val.toNat) && decide (c.val.toNat ≤ b.val.toNat))
      || inClassItems rest c
  | a :: rest, c => (a == c) || inClassItems rest c

/-- One-character class test, with negation for `[!...]`. -/
def classMatch (neg : Bool) (content : List Char) (c : Char) : Bool :=
  if neg then !(inClassItems content c) else inClassItems content c

/-- Pattern tokens produced from a glob pattern. -/
inductive Tok where
  | star : Tok
  | question : Tok
  | lit : Char → Tok
  | cls : Bool → List Char → Tok
deriving DecidableEq

/-- Fueled tokenizer body; the fuel only bounds recursion depth and
`pattern.length` fuel always suffices since every step consumes at least one
character. -/
def tokenizeF : Nat → List Char → List Tok
  | 0, _ => []
  | _ + 1, [] => []
  | fuel + 1, '*' :: ps => Tok.star :: tokenizeF fuel ps
  | fuel + 1, '?' :: ps => Tok.question :: tokenizeF fuel ps
  | fuel + 1, '[' :: ps =>
    match extractClass ps with
    | some (neg, content, rest) => Tok.cls neg content :: tokenizeF fuel rest
    | none => Tok.lit '[' :: tokenizeF fuel ps
  | fuel + 1, c :: ps => Tok.lit c :: tokenizeF fuel ps

/-- Tokenize a glob pattern, mirroring `fnmatch.translate`. -/
def tokenize (ps : List Char) : List Tok :=
  tokenizeF ps.length ps

/-- All suffixes of a character list, longest first. -/
def suffixes : List Char → List (List Char)
  | [] => [[]]
  | c :: cs => (c :: cs) :: suffixes cs

/-- Anchored matcher over the token list: `*` matches any run (tried through
every suffix), `?` one character, a literal itself, a class one character of
the class.  This is the matching semantics of the anchored regex produced by
`fnmatch.translate`. -/
def tokMatch : List Tok → List Char → Bool
  | [], cs => cs.isEmpty
  | Tok.star :: ts, cs => (suffixes cs).any (fun suf => tokMatch ts suf)
  | Tok.question :: ts, cs =>
    match cs with
    | [] => false
    | _ :: cs2 => tokMatch ts cs2
  | Tok.lit a :: ts, cs =>
    match cs with
    | [] => false
    | c :: cs2 => a == c && tokMatch ts cs2
  | Tok.cls neg content :: ts, cs =>
    match cs with
    | [] => false
    | c :: cs2 => classMatch neg content c && tokMatch ts cs2

/-- Embedding of `fnmatch.fnmatch(name, pat)` (POSIX: `normcase` is the
identity, so matching is case-sensitive). -/
def fnmatch (name pat : String) : Bool :=
  tokMatch (tokenize pat.data) name.data

/-- Declarative standard wildcard semantics over tokens: `*` matches an
arbitrary run of characters, `?` exactly one, a literal itself and a class
one character satisfying the class test. -/
inductive TokSem : List Tok → List Char → Prop where
  | nil : TokSem [] []
  | star (cs1 cs2 : List Char) {ts : List Tok} (h : TokSem ts cs2) :
      TokSem (Tok.star :: ts) (cs1 ++ cs2)
  | question {c : Char} {cs : List Char} {ts : List Tok} (h : TokSem ts cs) :
      TokSem (Tok.question :: ts) (c :: cs)
  | lit {c : Char} {cs : List Char} {ts : List Tok} (h : TokSem ts cs) :
      TokSem (Tok.lit c :: ts) (c :: cs)
  | cls {neg : Bool} {content : List Char} {c : Char} {cs : List Char}
      {ts : List Tok} (hc : classMatch neg content c = true) (h : TokSem ts cs) :
      TokSem (Tok.cls neg content :: ts) (c :: cs)

theorem mem_suffixes (cs suf : List Char) :
    suf ∈ suffixes cs ↔ ∃ pre, pre ++ suf = cs := by
  induction cs with
  | nil =>
    constructor
    · intro h
      simp only [suffixes, List.mem_singleton] at h
      exact ⟨[], by simp [h]⟩
    · rintro ⟨pre, h⟩
      rcases List.append_eq_nil.mp h with ⟨_, h2⟩
      simp [suffixes, h2]
  | cons c cs ih =>
    constructor
    · intro h
      simp only [suffixes, List.mem_cons] at h
      rcases h with h | h
      · exact ⟨[], by simp [h]⟩
      · rcases ih.mp h with ⟨pre, hp⟩
        exact ⟨c :: pre, by simp [hp]⟩
    · rintro ⟨pre, h⟩
      cases pre with
      | nil =>
        simp only [List.nil_append] at h
        simp [suffixes, h]
      | cons p ps =>
        simp only [List.cons_append, List.cons.injEq] at h
        rcases h with ⟨_, h2⟩
        simp only [suffixes, List.mem_cons]
        exact Or.inr (ih.mpr ⟨ps, h2⟩)

/-- The executable matcher agrees with the declarative wildcard semantics on
every token list and subject. -/
theorem tokMatch_iff_tokSem (ts : List Tok) :
    ∀ cs : List Char, tokMatch ts cs = true ↔ TokSem ts cs := by
  induction ts with
  | nil =>
    intro cs
    cases cs with
    | nil => simpa [tokMatch] using TokSem.nil
    | cons c cs =>
      simp only [tokMatch, List.isEmpty_cons]
      constructor
      · intro h
        cases h
      · intro h
        cases h
  | cons t ts ih =>
    cases t with
    | star =>
      intro cs
      constructor
      · intro h
        simp only [tokMatch, List.any_eq_true] at h
        rcases h with ⟨suf, hmem, hm⟩
        rcases (mem_suffixes cs suf).mp hmem with ⟨pre, hp⟩
        exact hp ▸ TokSem.star pre suf ((ih suf).mp hm)
      · intro h
        cases h with
        | star cs1 cs2 h2 =>
          simp only [tokMatch, List.any_eq_true]
          exact ⟨cs2, (mem_suffixes _ _).mpr ⟨cs1, rfl⟩, (ih cs2).mpr h2⟩
    | question =>
      intro cs
      cases cs with
      | nil =>
        simp only [tokMatch]
        constructor
        · intro h
          cases h
        · intro h
          cases h
      | cons c cs2 =>
        simp only [tokMatch]
        constructor
        · intro h
          exact TokSem.question ((ih cs2).mp h)
        · intro h
          cases h with
          | question h2 => exact (ih cs2).mpr h2
    | lit a =>
      intro cs
      cases cs with
      | nil =>
        simp only [tokMatch]
        constructor
        · intro h
          cases h
        · intro h
          cases h
      | cons c cs2 =>
        simp only [tokMatch, Bool.and_eq_true, beq_iff_eq]
        constructor
        · rintro ⟨rfl, h⟩
          exact TokSem.lit ((ih cs2).mp h)
        · intro h
          cases h with
          | lit h2 => exact ⟨rfl, (ih cs2).mpr h2⟩
    | cls neg content =>
      intro cs
      cases cs with
      | nil =>
        simp only [tokMatch]
        constructor
        · intro h
          cases h
        · intro h
          cases h
      | cons c cs2 =>
        simp only [tokMatch, Bool.and_eq_true]
        constructor
        · rintro ⟨hc, h⟩
          exact TokSem.cls hc ((ih cs2).mp h)
        · intro h
          cases h with
          | cls hc h2 => exact ⟨hc, (ih cs2).mpr h2⟩

/-! ## String ordering and `list.sort()`

`_refresh_listing` calls `files.sort()`; Python sorts strings
lexicographically by code point.  We embed this as an insertion sort with a
lexicographic comparison on the code points. -/

/-- Lexicographic code-point comparison of character lists (Python string
`<=`). -/
def lexLe : List Char → List Char → Bool
  | [], _ => true
  | _ :: _, [] => false
  | a :: as, b :: bs =>
    if a.val.toNat < b.val.toNat then true
    else if b.val.toNat < a.val.toNat then false
    else lexLe as bs

/-- Python string comparison used by `list.sort()`. -/
def strLeB (a b : String) : Bool :=
  lexLe a.data b.data

/-- The ordering relation of the displayed file list. -/
def StrLe (a b : String) : Prop :=
  strLeB a b = true

/-- Insert into a sorted list (stable, as Python's sort is). -/
def insertStr (x : String) : List String → List String
  | [] => [x]
  | y :: ys => if strLeB x y then x :: y :: ys else y :: insertStr x ys

/-- Embedding of `files.sort()` on a list of names. -/
def sortStrings : List String → List String
  | [] => []
  | x :: xs => insertStr x (sortStrings xs)

theorem lexLe_total (as : List Char) :
    ∀ bs : List Char, lexLe as bs = true ∨ lexLe bs as = true := by
  induction as with
  | nil => intro bs; exact Or.inl rfl
  | cons a as ih =>
    intro bs
    cases bs with
    | nil => exact Or.inr rfl
    | cons b bs =>
      simp only [lexLe]
      by_cases hab : a.val.toNat < b.val.toNat
      · simp [hab]
      · by_cases hba : b.val.toNat < a.val.toNat
        · simp [hab, hba]
        · simpa [hab, hba] using ih bs

theorem lexLe_trans (as : List Char) :
    ∀ bs cs : List Char,
      lexLe as bs = true → lexLe bs cs = true → lexLe as cs = true := by
  induction as with
  | nil => intro bs cs _ _; rfl
  | cons a as ih =>
    intro bs cs h1 h2
    cases bs with
    | nil => simp [lexLe] at h1
    | cons b bs =>
      cases cs with
      | nil => simp [lexLe] at h2
      | cons c cs =>
        simp only [lexLe] at h1 h2 ⊢
        by_cases hab : a.val.toNat < b.val.toNat
        · by_cases hbc : b.val.toNat < c.val.toNat
          · rw [if_pos (by omega : a.val.toNat < c.val.toNat)]
          · by_cases hcb : c.val.toNat < b.val.toNat
            · rw [if_neg hbc, if_pos hcb] at h2
              exact absurd h2 (by simp)
            · rw [if_pos (by omega : a.val.toNat < c.val.toNat)]
        · by_cases hba : b.val.toNat < a.val.toNat
          · rw [if_neg hab, if_pos hba] at h1
            exact absurd h1 (by simp)
          · rw [if_neg hab, if_neg hba] at h1
            by_cases hbc : b.val.toNat < c.val.toNat
            · rw [if_pos (by omega : a.val.toNat < c.val.toNat)]
            · by_cases hcb : c.val.toNat < b.val.toNat
              · rw [if_neg hbc, if_pos hcb] at h2
                exact absurd h2 (by simp)
              · rw [if_neg hbc, if_neg hcb] at h2
                rw [if_neg (by omega : ¬ a.val.toNat < c.val.toNat),
                    if_neg (by omega : ¬ c.val.toNat < a.val.toNat)]
                exact ih bs cs h1 h2

theorem strLeB_total (a b : String) : strLeB a b = true ∨ strLeB b a = true :=
  lexLe_total a.data b.data

theorem strLeB_trans {a b c : String} :
    strLeB a b = true → strLeB b c = true → strLeB a c = true :=
  lexLe_trans a.data b.data c.data

theorem mem_insertStr (x z : String) (l : List String) :
    z ∈ insertStr x l ↔ z = x ∨ z ∈ l := by
  induction l with
  | nil => simp [insertStr]
  | cons y ys ih =>
    simp only [insertStr]
    by_cases h : strLeB x y
    · rw [if_pos h]
      simp [List.mem_cons]
    · rw [if_neg h]
      simp only [List.mem_cons, ih]
      tauto

theorem pairwise_insertStr (x : String) (l : List String)
    (hl : l.Pairwise StrLe) : (insertStr x l).Pairwise StrLe := by
  induction l with
  | nil => simp [insertStr, List.Pairwise]
  | cons y ys ih =>
    rcases List.pairwise_cons.mp hl with ⟨hy, hys⟩
    simp only [insertStr]
    by_cases h : strLeB x y
    · rw [if_pos h]
      refine List.pairwise_cons.mpr ⟨?_, hl⟩
      intro z hz
      rcases List.mem_cons.mp hz with rfl | hz
      · exact h
      · exact strLeB_trans h (hy z hz)
    · rw [if_neg h]
      refine List.pairwise_cons.mpr ⟨?_, ih hys⟩
      intro z hz
      rcases (mem_insertStr x z ys).mp hz with hzx | hz
      · rw [hzx]
        rcases strLeB_total x y with hxy | hyx
        · exact absurd hxy h
        · exact hyx
      · exact hy z hz

/-- The name list produced by `files.sort()` is sorted. -/
theorem sortStrings_pairwise (l : List String) :
    (sortStrings l).Pairwise StrLe := by
  induction l with
  | nil => simp [sortStrings, List.Pairwise]
  | cons x xs ih => exact pairwise_insertStr x (sortStrings xs) ih

/-! ## Paths

POSIX `os.path.join` for a listing name (which never contains a separator
itself unless absolute) and `os.path.basename`. -/

/-- Does the string start with the path separator? -/
def startsWithSep (s : String) : Bool :=
  match s.data with
  | [] => false
  | c :: _ => c == '/'

/-- Does the string end with the path separator? -/
def endsWithSep (s : String) : Bool :=
  match s.data.getLast? with
  | some c => c == '/'
  | none => false

/-- Embedding of `os.path.join(dir, name)` on POSIX. -/
def osPathJoin (d n : String) : String :=
  if startsWithSep n then n
  else if d == "" || endsWithSep d then d ++ n
  else d ++ "/" ++ n

/-- Embedding of `os.path.basename` on POSIX: the run of characters after
the last separator. -/
def basename (s : String) : String :=
  ⟨s.data.foldl (fun acc c => if c = '/' then [] else acc ++ [c]) []⟩

/-! ## Metadata cache (`diskcache.Cache` as used by the program)

`META_CACHE` maps a full path to the pair `(st_size, st_mtime)`.  The program
only ever uses `META_CACHE.get(fp)` and `META_CACHE[fp] = meta`. -/

/-- The metadata cache contents: association list from path to
`(size, mtime)`. -/
def Cache := List (String × Nat × Nat)

/-- Embedding of `META_CACHE.get(fp)` (`None` on a miss). -/
def cacheGet (c : Cache) (p : String) : Option (Nat × Nat) :=
  match c with
  | [] => none
  | (q, v) :: rest => if q == p then some v else cacheGet rest p

/-- Embedding of `META_CACHE[fp] = meta` (upsert). -/
def cachePut (c : Cache) (p : String) (v : Nat × Nat) : Cache :=
  (p, v) :: c

theorem cacheGet_cachePut_same (c : Cache) (p : String) (v : Nat × Nat) :
    cacheGet (cachePut c p v) p = some v := by
  simp [cachePut, cacheGet]

theorem cacheGet_cachePut_other (c : Cache) (p q : String) (v : Nat × Nat)
    (h : ¬ q = p) : cacheGet (cachePut c p v) q = cacheGet c q := by
  simp only [cachePut, cacheGet]
  rw [if_neg (by simpa [beq_iff_eq] using fun hpq => h hpq.symm)]

/-! ## `FileManagerTab._populate` (lines 975-988)

For each result path: `meta = META_CACHE.get(fp); if not meta: st =
os.stat(fp); meta = (st.st_size, st.st_mtime); META_CACHE[fp] = meta`.
`os.stat` can raise; the loop does not guard it. -/

/-- A row of the tab's tree view. -/
structure FileRow where
  name : String
  size : Nat
  mtime : Nat
deriving DecidableEq

/-- Metadata resolution for one path in `_populate`: the cached entry is used
when present, otherwise the path is stat-ed and the result stored. -/
def resolveMeta (stat : String → Except Unit (Nat × Nat)) (cache : Cache)
    (fp : String) : Except Unit ((Nat × Nat) × Cache) :=
  match cacheGet cache fp with
  | some meta => Except.ok (meta, cache)
  | none =>
    match stat fp with
    | Except.error e => Except.error e
    | Except.ok st => Except.ok (st, cachePut cache fp st)

/-- Embedding of the `_populate` loop: rows inserted before an uncaught
`os.stat` exception, the cache state, and whether the exception escaped. -/
def populate (stat : String → Except Unit (Nat × Nat)) (cache : Cache) :
    List String → List FileRow × Cache × Bool
  | [] => ([], cache, false)
  | fp :: fps =>
    match resolveMeta stat cache fp with
    | Except.error _ => ([], cache, true)
    | Except.ok (meta, c2) =>
      let rest := populate stat c2 fps
      (⟨basename fp, meta.1, meta.2⟩ :: rest.1, rest.2.1, rest.2.2)

/-! ## Watchdog handler (`DirChangeHandler.on_any_event`, lines 669-673)

`on_any_event` puts the string `'refresh'` on the tab queue and does nothing
else; in particular it never touches `META_CACHE`. -/

/-- Watchdog change-event kinds. -/
inductive EventKind where
  | created
  | modified
  | deleted
  | moved
deriving DecidableEq

/-- A watchdog filesystem event. -/
structure ChangeEvent where
  kind : EventKind
  path : String
deriving DecidableEq

/-- The per-tab state touched by the handler: the shared metadata cache and
the tab's refresh queue. -/
structure TabState where
  cache : Cache
  queue : List String

/-- Embedding of `DirChangeHandler.on_any_event`; the event is ignored. -/
def on_any_event (st : TabState) (_ev : ChangeEvent) : TabState :=
  { st with queue := st.queue ++ ["refresh"] }

/-! ## Background scanner (`start_scan`, lines 686-710, non-recursive branch)

The scan thread enumerates `fs.ls(path)`; per entry it tests
`use_regex and re.search(pattern, name)`, then
`fuzzy and FUZZY_ENABLED and fuzz.partial_ratio(pattern, name) > 60`, then
`fnmatch.fnmatch(name, pattern)`, appending the entry on the first hit.  An
exception anywhere in the thread (unreadable root, invalid regex) is
swallowed by the executor future: nothing is put on the queue and nothing is
logged.  `re.search` and `fuzz.partial_ratio` live in external libraries and
are passed in as functions (`re.search` returning `.error` when the pattern
does not compile). -/

/-- What the scan thread makes observable: the list put on the queue (if it
reached the end) and the log lines written. -/
structure ScanOutcome where
  published : Option (List String)
  log : List String
deriving DecidableEq

/-- The log line `Scanned N items in PATH`. -/
def scanLogMsg (n : Nat) (path : String) : String :=
  "Scanned " ++ toString n ++ " items in " ++ path

/-- The per-entry decision of the `start_scan` loop body. -/
def scanEntryMatches (research : String → String → Except Unit Bool)
    (score : String → String → Nat) (fuzzyEnabled : Bool)
    (useRegex fuzzy : Bool) (pattern name : String) : Except Unit Bool :=
  match (if useRegex then research pattern name else Except.ok false) with
  | Except.error e => Except.error e
  | Except.ok true => Except.ok true
  | Except.ok false =>
    if fuzzy && fuzzyEnabled && decide (score pattern name > 60) then
      Except.ok true
    else Except.ok (fnmatch name pattern)

/-- The scan loop: collect the entries whose basename matches, in traversal
order; an exception aborts the loop. -/
def collectNR (f : String → Except Unit Bool) :
    List String → Except Unit (List String)
  | [] => Except.ok []
  | e :: es =>
    match f (basename e) with
    | Except.error err => Except.error err
    | Except.ok true =>
      match collectNR f es with
      | Except.error err => Except.error err
      | Except.ok r => Except.ok (e :: r)
    | Except.ok false => collectNR f es

/-- Embedding of `start_scan` (non-recursive branch), with `fs.ls` passed in
as an `Except` value. -/
def start_scan (research : String → String → Except Unit Bool)
    (score : String → String → Nat) (fuzzyEnabled : Bool)
    (path pattern : String) (useRegex fuzzy : Bool)
    (ls : Except Unit (List String)) : ScanOutcome :=
  match ls with
  | Except.error _ => { published := none, log := [] }
  | Except.ok entries =>
    match collectNR
        (scanEntryMatches research score fuzzyEnabled useRegex fuzzy pattern)
        entries with
    | Except.error _ => { published := none, log := [] }
    | Except.ok results =>
      { published := some results, log := [scanLogMsg results.length path] }

/-! ## Dialog listing refresh (`UltraAdvancedFileDialog._refresh_listing`,
lines 304-355)

`os.listdir` failing shows a message box and returns with nothing changed.
Otherwise names are partitioned into subdirectories and matched files
(regex errors caught per name and treated as no match), the file names are
sorted, and rows are built: `os.path.getsize` is guarded (`size = 0` on
error) but `os.path.getmtime` is not, so an mtime error escapes the Tk
callback, leaving the partially rebuilt tree and skipping the status
update. -/

/-- What one run of `_refresh_listing` leaves behind.  `none` fields mean
the corresponding widget state was not touched. -/
structure RefreshResult where
  dirError : Bool
  newDirectory : Option String
  dirListing : Option (List String)
  rows : Option (List FileRow)
  aborted : Bool
  statusCount : Option Nat
deriving DecidableEq

/-- The partition loop over `os.listdir` names: subdirectories and matched
file names, both in traversal order.  In regex mode a `re.error` is caught
and the name skipped. -/
def partitionNames (isdir : String → Bool)
    (research : String → String → Except Unit Bool) (useRegex : Bool)
    (dir pat : String) : List String → List String × List String
  | [] => ([], [])
  | n :: ns =>
    let rest := partitionNames isdir research useRegex dir pat ns
    if isdir (osPathJoin dir n) then (n :: rest.1, rest.2)
    else if useRegex then
      match research pat n with
      | Except.ok true => (rest.1, n :: rest.2)
      | Except.ok false => rest
      | Except.error _ => rest
    else if fnmatch n pat then (rest.1, n :: rest.2) else rest

/-- The row-building loop: rows inserted before an uncaught
`os.path.getmtime` exception, and whether that exception escaped. -/
def buildRows (getsize getmtime : String → Except Unit Nat) (dir : String) :
    List String → List FileRow × Bool
  | [] => ([], false)
  | n :: ns =>
    let full := osPathJoin dir n
    let size := match getsize full with
      | Except.ok s => s
      | Except.error _ => 0
    match getmtime full with
    | Except.error _ => ([], true)
    | Except.ok m =>
      let rest := buildRows getsize getmtime dir ns
      (⟨n, size, m⟩ :: rest.1, rest.2)

/-- Embedding of `_refresh_listing`. -/
def refresh_listing (listdir : Except Unit (List String))
    (isdir : String → Bool) (research : String → String → Except Unit Bool)
    (getsize getmtime : String → Except Unit Nat)
    (useRegex : Bool) (dir pat : String) : RefreshResult :=
  match listdir with
  | Except.error _ =>
    { dirError := true, newDirectory := none, dirListing := none,
      rows := none, aborted := false, statusCount := none }
  | Except.ok names =>
    let parts := partitionNames isdir research useRegex dir pat names
    let files := sortStrings parts.2
    let built := buildRows getsize getmtime dir files
    { dirError := false
      newDirectory := some dir
      dirListing := some (".." :: sortStrings parts.1)
      rows := some built.1
      aborted := built.2
      statusCount := if built.2 then none else some files.length }

/-! ## Copy operation (`_copy` via `shutil.copy2`, lines 676-677 and
1091-1098)

`FileManagerTab._copy` asks for a destination string and schedules
`shutil.copy2(src, dst)` on the asyncio loop; the future is dropped, so an
exception is swallowed.  `shutil.copy2` raises when the source is missing or
when source and destination are the same file, and otherwise writes the
source's content to the destination, replacing whatever was there. -/

/-- File contents by path (regular files only, the case the claim is
about). -/
def FileMap := List (String × String)

/-- Content lookup. -/
def fsGet (fs : FileMap) (p : String) : Option String :=
  match fs with
  | [] => none
  | (q, v) :: rest => if q == p then some v else fsGet rest p

/-- Write content at a path, replacing an existing file. -/
def fsSet (fs : FileMap) (p : String) (v : String) : FileMap :=
  (p, v) :: fs

/-- Embedding of `shutil.copy2(src, dst)` for file destinations. -/
def shutil_copy2 (fs : FileMap) (src dst : String) :
    Except Unit FileMap :=
  match fsGet fs src with
  | none => Except.error ()
  | some content =>
    if src == dst then Except.error ()
    else Except.ok (fsSet fs dst content)

/-- Embedding of `FileManagerTab._copy`: no selection or no destination is a
no-op; otherwise `shutil.copy2` runs and any exception is silently lost with
the dropped future. -/
def tab_copy (fs : FileMap) (sel dst : Option String) : FileMap :=
  match sel, dst with
  | some fp, some d =>
    match shutil_copy2 fs fp d with
    | Except.ok fs2 => fs2
    | Except.error _ => fs
  | _, _ => fs

/-! ## Deletion (`UltraAdvancedFileDialog.delete_command`, lines 434-451)

With no selection a warning is shown and nothing happens.  After a confirmed
dialog, each selected name is joined to the directory and removed only if
`os.path.exists` and `os.path.isfile` hold at that moment; `os.remove` is
wrapped in a per-entry `try` so one failure shows an error box and the loop
continues. -/

/-- Kind of a filesystem node. -/
inductive NodeKind where
  | file
  | dir
deriving DecidableEq

/-- The filesystem as seen by `os.path.exists`, `os.path.isfile` and
`os.remove`: association list from path to node kind. -/
def FileSys := List (String × NodeKind)

/-- Node lookup. -/
def fsLookup (fs : FileSys) (p : String) : Option NodeKind :=
  match fs with
  | [] => none
  | (q, v) :: rest => if q == p then some v else fsLookup rest p

/-- Embedding of `os.remove` success: the path disappears. -/
def fsRemove (fs : FileSys) (p : String) : FileSys :=
  match fs with
  | [] => []
  | (q, v) :: rest =>
    if q == p then fsRemove rest p else (q, v) :: fsRemove rest p

/-- Embedding of `os.path.exists`. -/
def osPathExists (fs : FileSys) (p : String) : Bool :=
  (fsLookup fs p).isSome

/-- Embedding of `os.path.isfile`. -/
def osPathIsfile (fs : FileSys) (p : String) : Bool :=
  fsLookup fs p == some NodeKind.file

/-- What `delete_command` leaves behind: the filesystem, the paths passed to
`os.remove` in order, and the error dialogs shown. -/
structure DeleteOutcome where
  fs : FileSys
  attempted : List String
  errors : List String

/-- The confirmed deletion loop.  `removeFails` tells which paths
`os.remove` raises on. -/
def deleteLoop (removeFails : String → Bool) (dir : String) (fs : FileSys) :
    List String → DeleteOutcome
  | [] => ⟨fs, [], []⟩
  | name :: rest =>
    let full := osPathJoin dir name
    if osPathExists fs full && osPathIsfile fs full then
      if removeFails full then
        let o := deleteLoop removeFails dir fs rest
        ⟨o.fs, full :: o.attempted, full :: o.errors⟩
      else
        let o := deleteLoop removeFails dir (fsRemove fs full) rest
        ⟨o.fs, full :: o.attempted, o.errors⟩
    else deleteLoop removeFails dir fs rest

/-- Embedding of `delete_command`. -/
def delete_command (selected : List String) (confirm : Bool)
    (removeFails : String → Bool) (dir : String) (fs : FileSys) :
    DeleteOutcome :=
  if selected.isEmpty then ⟨fs, [], []⟩
  else if confirm then deleteLoop removeFails dir fs selected
  else ⟨fs, [], []⟩

/-! ## Helper lemmas about the embeddings -/

theorem collectNR_sublist (f : String → Except Unit Bool) :
    ∀ es r : List String, collectNR f es = Except.ok r → r.Sublist es := by
  intro es
  induction es with
  | nil =>
    intro r h
    simp only [collectNR, Except.ok.injEq] at h
    subst h
    exact List.Sublist.refl []
  | cons e es ih =>
    intro r h
    cases hf : f (basename e) with
    | error err =>
      simp only [collectNR, hf] at h
      exact Except.noConfusion h
    | ok b =>
      cases b with
      | true =>
        cases hc : collectNR f es with
        | error err =>
          simp only [collectNR, hf, hc] at h
          exact Except.noConfusion h
        | ok r2 =>
          simp only [collectNR, hf, hc, Except.ok.injEq] at h
          subst h
          exact List.Sublist.cons₂ e (ih r2 hc)
      | false =>
        simp only [collectNR, hf] at h
        exact List.Sublist.cons e (ih r h)

theorem collectNR_filter (f : String → Except Unit Bool) (g : String → Bool)
    (hfg : ∀ e : String, f (basename e) = Except.ok (g e)) :
    ∀ es : List String, collectNR f es = Except.ok (es.filter g) := by
  intro es
  induction es with
  | nil => rfl
  | cons e es ih =>
    cases hge : g e with
    | true => simp [collectNR, hfg e, hge, ih, List.filter_cons]
    | false => simp [collectNR, hfg e, hge, ih, List.filter_cons]

theorem collectNR_congr (f g : String → Except Unit Bool)
    (h : ∀ s : String, f s = g s) :
    ∀ es : List String, collectNR f es = collectNR g es := by
  intro es
  induction es with
  | nil => rfl
  | cons e es ih => simp only [collectNR, h (basename e), ih]

theorem buildRows_names (gs gm : String → Except Unit Nat) (dir : String) :
    ∀ l : List String, (buildRows gs gm dir l).2 = false →
      (buildRows gs gm dir l).1.map FileRow.name = l := by
  intro l
  induction l with
  | nil => intro _; rfl
  | cons n ns ih =>
    intro h
    cases hm : gm (osPathJoin dir n) with
    | error e =>
      simp only [buildRows, hm] at h
      exact absurd h (by decide)
    | ok m =>
      simp only [buildRows, hm] at h ⊢
      simp [ih h]

theorem partitionNames_regex_error_files (isdir : String → Bool)
    (research : String → String → Except Unit Bool) (dir pat : String)
    (h : ∀ n : String, research pat n = Except.error ()) :
    ∀ ns : List String, (partitionNames isdir research true dir pat ns).2 = [] := by
  intro ns
  induction ns with
  | nil => rfl
  | cons n ns ih =>
    simp only [partitionNames]
    by_cases hd : isdir (osPathJoin dir n)
    · rw [if_pos hd]
      exact ih
    · rw [if_neg hd]
      simp only [if_true, h n]
      exact ih

theorem fsLookup_fsRemove (fs : FileSys) (p q : String) :
    fsLookup (fsRemove fs q) p = if p = q then none else fsLookup fs p := by
  induction fs with
  | nil => by_cases h : p = q <;> simp [fsRemove, fsLookup, h]
  | cons e rest ih =>
    obtain ⟨k, v⟩ := e
    by_cases hpq : p = q
    · subst hpq
      rw [if_pos rfl]
      rw [if_pos rfl] at ih
      by_cases hkp : k = p
      · have h1 : fsRemove ((k, v) :: rest) p = fsRemove rest p := by
          simp [fsRemove, beq_iff_eq, hkp]
        rw [h1, ih]
      · have h1 : fsRemove ((k, v) :: rest) p = (k, v) :: fsRemove rest p := by
          simp [fsRemove, beq_iff_eq, hkp]
        rw [h1]
        simp only [fsLookup]
        rw [if_neg (by simpa [beq_iff_eq] using hkp), ih]
    · rw [if_neg hpq]
      rw [if_neg hpq] at ih
      by_cases hkq : k = q
      · have hkp : ¬ k = p := fun hh => hpq (hh.symm.trans hkq)
        have h1 : fsRemove ((k, v) :: rest) q = fsRemove rest q := by
          simp [fsRemove, beq_iff_eq, hkq]
        rw [h1, ih]
        simp only [fsLookup]
        rw [if_neg (by simpa [beq_iff_eq] using hkp)]
      · have h1 : fsRemove ((k, v) :: rest) q = (k, v) :: fsRemove rest q := by
          simp [fsRemove, beq_iff_eq, hkq]
        rw [h1]
        simp only [fsLookup]
        rw [ih]

theorem deleteGuard_iff (fs : FileSys) (p : String) :
    (osPathExists fs p && osPathIsfile fs p) = true ↔
      fsLookup fs p = some NodeKind.file := by
  cases h : fsLookup fs p with
  | none => simp [osPathExists, osPathIsfile, h]
  | some k =>
    cases k with
    | file => simp [osPathExists, osPathIsfile, h]
    | dir => simp [osPathExists, osPathIsfile, h]

theorem deleteLoop_none_mono (rf : String → Bool) (dir p : String) :
    ∀ (l : List String) (fs : FileSys), fsLookup fs p = none →
      fsLookup (deleteLoop rf dir fs l).fs p = none := by
  intro l
  induction l with
  | nil => intro fs h; exact h
  | cons name rest ih =>
    intro fs h
    simp only [deleteLoop]
    by_cases hg : (osPathExists fs (osPathJoin dir name)
        && osPathIsfile fs (osPathJoin dir name)) = true
    · rw [if_pos hg]
      by_cases hrf : rf (osPathJoin dir name) = true
      · rw [if_pos hrf]
        exact ih fs h
      · rw [if_neg hrf]
        refine ih (fsRemove fs (osPathJoin dir name)) ?_
        rw [fsLookup_fsRemove]
        by_cases hp : p = osPathJoin dir name
        · rw [if_pos hp]
        · rw [if_neg hp]; exact h
    · rw [if_neg hg]
      exact ih fs h

theorem deleteLoop_attempted_file (rf : String → Bool) (dir p : String) :
    ∀ (l : List String) (fs : FileSys),
      p ∈ (deleteLoop rf dir fs l).attempted →
      fsLookup fs p = some NodeKind.file := by
  intro l
  induction l with
  | nil => intro fs h; exact absurd h (List.not_mem_nil p)
  | cons name rest ih =>
    intro fs h
    simp only [deleteLoop] at h
    by_cases hg : (osPathExists fs (osPathJoin dir name)
        && osPathIsfile fs (osPathJoin dir name)) = true
    · rw [if_pos hg] at h
      have hfile : fsLookup fs (osPathJoin dir name) = some NodeKind.file :=
        (deleteGuard_iff fs (osPathJoin dir name)).mp hg
      by_cases hrf : rf (osPathJoin dir name) = true
      · rw [if_pos hrf] at h
        rcases List.mem_cons.mp h with hpf | h2
        · rw [hpf]; exact hfile
        · exact ih fs h2
      · rw [if_neg hrf] at h
        rcases List.mem_cons.mp h with hpf | h2
        · rw [hpf]; exact hfile
        · have h3 := ih (fsRemove fs (osPathJoin dir name)) h2
          rw [fsLookup_fsRemove] at h3
          by_cases hp : p = osPathJoin dir name
          · rw [if_pos hp] at h3
            exact Option.noConfusion h3
          · rw [if_neg hp] at h3
            exact h3
    · rw [if_neg hg] at h
      exact ih fs h

theorem deleteLoop_dir_preserved (rf : String → Bool) (dir p : String) :
    ∀ (l : List String) (fs : FileSys),
      fsLookup fs p = some NodeKind.dir →
      fsLookup (deleteLoop rf dir fs l).fs p = some NodeKind.dir := by
  intro l
  induction l with
  | nil => intro fs h; exact h
  | cons name rest ih =>
    intro fs h
    simp only [deleteLoop]
    by_cases hg : (osPathExists fs (osPathJoin dir name)
        && osPathIsfile fs (osPathJoin dir name)) = true
    · rw [if_pos hg]
      have hfile : fsLookup fs (osPathJoin dir name) = some NodeKind.file :=
        (deleteGuard_iff fs (osPathJoin dir name)).mp hg
      by_cases hrf : rf (osPathJoin dir name) = true
      · rw [if_pos hrf]
        exact ih fs h
      · rw [if_neg hrf]
        refine ih (fsRemove fs (osPathJoin dir name)) ?_
        rw [fsLookup_fsRemove]
        have hp : ¬ p = osPathJoin dir name := by
          intro hh
          rw [hh, hfile] at h
          exact NodeKind.noConfusion (Option.some.inj h)
        rw [if_neg hp]
        exact h
    · rw [if_neg hg]
      exact ih fs h

theorem deleteLoop_removes (rf : String → Bool) (dir p : String)
    (hrf : rf p = false) :
    ∀ (l : List String) (fs : FileSys),
      fsLookup fs p = some NodeKind.file →
      (∃ name ∈ l, osPathJoin dir name = p) →
      fsLookup (deleteLoop rf dir fs l).fs p = none := by
  intro l
  induction l with
  | nil =>
    intro fs _ hex
    rcases hex with ⟨name, hmem, _⟩
    exact absurd hmem (List.not_mem_nil name)
  | cons nm rest ih =>
    intro fs hfile hex
    simp only [deleteLoop]
    by_cases hfull : osPathJoin dir nm = p
    · have hg : (osPathExists fs (osPathJoin dir nm)
          && osPathIsfile fs (osPathJoin dir nm)) = true := by
        rw [deleteGuard_iff, hfull]
        exact hfile
      rw [if_pos hg]
      have hrf2 : ¬ rf (osPathJoin dir nm) = true := by
        rw [hfull, hrf]
        simp
      rw [if_neg hrf2]
      apply deleteLoop_none_mono
      rw [fsLookup_fsRemove, if_pos hfull.symm]
    · rcases hex with ⟨name, hmem, hjoin⟩
      rcases List.mem_cons.mp hmem with hnm | hmem2
      · exact absurd (hnm ▸ hjoin) hfull
      · by_cases hg : (osPathExists fs (osPathJoin dir nm)
            && osPathIsfile fs (osPathJoin dir nm)) = true
        · rw [if_pos hg]
          by_cases hr : rf (osPathJoin dir nm) = true
          · rw [if_pos hr]
            exact ih fs hfile ⟨name, hmem2, hjoin⟩
          · rw [if_neg hr]
            refine ih (fsRemove fs (osPathJoin dir nm)) ?_ ⟨name, hmem2, hjoin⟩
            rw [fsLookup_fsRemove, if_neg (fun hh => hfull hh.symm)]
            exact hfile
        · rw [if_neg hg]
          exact ih fs hfile ⟨name, hmem2, hjoin⟩

/-! ## Claim C1 : cache use in metadata resolution -/

/-- Claim C1 counterexample: path `p` is cached at `(1, 1)` while the
on-disk stat returns `(2, 2)`.  `_populate`'s metadata resolution returns
the stale cached pair and leaves the cache untouched: the cached entry is
used although its size and mtime disagree with the current stat, no live
stat is performed and nothing is overwritten, so the claimed mismatch
check does not exist. -/
theorem claim1_counterexample :
    resolveMeta (fun _ => Except.ok (2, 2)) [("p", (1, 1))] "p"
      = Except.ok ((1, 1), [("p", (1, 1))]) ∧
    ((1, 1) : Nat × Nat) ≠ (2, 2) :=
  ⟨rfl, by decide⟩

/-- Claim C1 as amended: when resolving metadata for a matched file,
`_populate` uses a cached entry unconditionally whenever one is present —
the on-disk stat is never consulted on a hit, so the result does not depend
on it — and only on a cache miss does it perform a live stat and store the
fresh values in the cache. -/
theorem claim1_theorem :
    (∀ (stat stat2 : String → Except Unit (Nat × Nat)) (cache : Cache)
        (fp : String) (meta : Nat × Nat),
        cacheGet cache fp = some meta →
        resolveMeta stat cache fp = Except.ok (meta, cache) ∧
        resolveMeta stat cache fp = resolveMeta stat2 cache fp) ∧
    (∀ (stat : String → Except Unit (Nat × Nat)) (cache : Cache)
        (fp : String) (st : Nat × Nat),
        cacheGet cache fp = none → stat fp = Except.ok st →
        resolveMeta stat cache fp = Except.ok (st, cachePut cache fp st) ∧
        cacheGet (cachePut cache fp st) fp = some st) := by
  constructor
  · intro stat stat2 cache fp meta h
    exact ⟨by simp [resolveMeta, h], by simp [resolveMeta, h]⟩
  · intro stat cache fp st h hs
    exact ⟨by simp [resolveMeta, h, hs], cacheGet_cachePut_same cache fp st⟩

/-- Claim C1 witness: the amended statement applied at a concrete hit
(cache holds `p`) and at a concrete miss (empty cache, stat succeeds). -/
theorem claim1_witness :
    (resolveMeta (fun _ => Except.ok (5, 6)) [("p", (1, 1))] "p"
        = Except.ok ((1, 1), [("p", (1, 1))]) ∧
      resolveMeta (fun _ => Except.ok (5, 6)) [("p", (1, 1))] "p"
        = resolveMeta (fun _ => Except.ok (7, 8)) [("p", (1, 1))] "p") ∧
    (resolveMeta (fun _ => Except.ok (5, 6)) [] "q"
        = Except.ok ((5, 6), cachePut [] "q" (5, 6)) ∧
      cacheGet (cachePut [] "q" (5, 6)) "q" = some (5, 6)) :=
  ⟨claim1_theorem.1 (fun _ => Except.ok (5, 6)) (fun _ => Except.ok (7, 8))
      [("p", (1, 1))] "p" (1, 1) rfl,
    claim1_theorem.2 (fun _ => Except.ok (5, 6)) [] "q" (5, 6) rfl rfl⟩

/-! ## Claim C2 : cache invalidation on a Deleted change event -/

/-- Claim C2 counterexample: path `p` is cached and the watcher reports a
`Deleted` event for `p`; a subsequent `cache.get("p")` still returns the
entry, not absent — the handler performs no invalidation at all. -/
theorem claim2_counterexample :
    cacheGet (on_any_event { cache := [("p", (1, 1))], queue := [] }
        { kind := EventKind.deleted, path := "p" }).cache "p"
      = some (1, 1) :=
  rfl

/-- Claim C2 as amended: on any change event — Deleted included — the
watchdog handler only appends a refresh message to the tab queue; it leaves
the metadata cache untouched, so every cached entry (including one for the
deleted path) is still returned by a subsequent get. -/
theorem claim2_theorem (st : TabState) (ev : ChangeEvent) :
    (on_any_event st ev).cache = st.cache ∧
    (∀ p, cacheGet (on_any_event st ev).cache p = cacheGet st.cache p) ∧
    (on_any_event st ev).queue = st.queue ++ ["refresh"] :=
  ⟨rfl, fun _ => rfl, rfl⟩

/-! ## Claim C5 : unreadable root directory -/

/-- Claim C5 counterexample: `start_scan` whose enumeration of the root
raises produces no published result but also no report of any kind (no log
line, and the exception dies inside the dropped executor future), while the
claim requires a reported directory-not-accessible error. -/
theorem claim5_counterexample :
    start_scan (fun _ _ => Except.ok false) (fun _ _ => 0) true "d" "*"
        false false (Except.error ())
      = { published := none, log := [] } :=
  rfl

/-- Claim C5 as amended: when the root cannot be enumerated, the dialog's
`_refresh_listing` shows an error dialog and leaves the displayed listing
and the current directory unchanged with no partial result, while
`start_scan` publishes no partial result either but reports nothing at all
(the exception is silently swallowed by the executor future). -/
theorem claim5_theorem :
    (∀ (isdir : String → Bool)
        (research : String → String → Except Unit Bool)
        (gs gm : String → Except Unit Nat) (useRegex : Bool)
        (dir pat : String),
        refresh_listing (Except.error ()) isdir research gs gm useRegex dir pat
          = { dirError := true, newDirectory := none, dirListing := none,
              rows := none, aborted := false, statusCount := none }) ∧
    (∀ (research : String → String → Except Unit Bool)
        (score : String → String → Nat) (fe : Bool) (path pattern : String)
        (useRegex fuzzy : Bool),
        start_scan research score fe path pattern useRegex fuzzy
            (Except.error ())
          = { published := none, log := [] }) :=
  ⟨fun _ _ _ _ _ _ _ => rfl, fun _ _ _ _ _ _ _ => rfl⟩

/-! ## Claim C6 : copy onto an existing destination -/

/-- Claim C6 counterexample: the destination `d` already exists with content
`B` and is not the overwrite target of any explicit flag; the copy
nevertheless succeeds and silently replaces `B` with the source content `A`.
No `DestinationConflict` (or any conflict detection) exists in the code. -/
theorem claim6_counterexample :
    fsGet (tab_copy [("s", "A"), ("d", "B")] (some "s") (some "d")) "d"
      = some "A" ∧
    fsGet [("s", "A"), ("d", "B")] "d" = some "B" :=
  ⟨rfl, rfl⟩

/-- Claim C6 as amended: a Copy whose source exists and whose destination
is a different path always succeeds and writes the source content over the
destination, whether or not the destination already exists — existing
content is silently overwritten and no distinguishable conflict outcome is
produced. -/
theorem claim6_theorem (fs : FileMap) (src dst content : String)
    (hsrc : fsGet fs src = some content) (hne : ¬ src = dst) :
    shutil_copy2 fs src dst = Except.ok (fsSet fs dst content) ∧
    fsGet (tab_copy fs (some src) (some dst)) dst = some content := by
  have h1 : shutil_copy2 fs src dst = Except.ok (fsSet fs dst content) := by
    simp only [shutil_copy2, hsrc]
    rw [if_neg (by simpa [beq_iff_eq] using hne)]
  refine ⟨h1, ?_⟩
  simp only [tab_copy, h1]
  simp [fsSet, fsGet]

/-- Claim C6 witness: the amended statement at the concrete two-file map. -/
theorem claim6_witness :
    shutil_copy2 [("s", "A"), ("d", "B")] "s" "d"
        = Except.ok (fsSet [("s", "A"), ("d", "B")] "d" "A") ∧
    fsGet (tab_copy [("s", "A"), ("d", "B")] (some "s") (some "d")) "d"
      = some "A" :=
  claim6_theorem [("s", "A"), ("d", "B")] "s" "d" "A" rfl (by decide)

/-! ## Claim C3 : regex pattern that fails to compile -/

/-- Claim C3 counterexample: a regex-mode `start_scan` over one entry with a
pattern that fails to compile publishes nothing at all — the claimed empty
result never appears and no log line is written: the `re.error` is not
caught in `start_scan`, so it kills the scan thread inside the dropped
executor future. -/
theorem claim3_counterexample :
    start_scan (fun _ _ => Except.error ()) (fun _ _ => 0) true "d" "("
        true false (Except.ok ["d/a"])
      = { published := none, log := [] } :=
  rfl

/-- Claim C3 as amended: in the dialog's `_refresh_listing` an invalid regex
is caught per name, every name is treated as a non-match, and the refresh
completes normally with an empty file list; in `start_scan`, however, the
regex error propagates out of the matcher, and with at least one entry
present the scan terminates without publishing any result (not even an
empty one) and without any report. -/
theorem claim3_theorem :
    (∀ (isdir : String → Bool)
        (research : String → String → Except Unit Bool)
        (gs gm : String → Except Unit Nat) (dir pat : String)
        (names : List String),
        (∀ n, research pat n = Except.error ()) →
        refresh_listing (Except.ok names) isdir research gs gm true dir pat
          = { dirError := false, newDirectory := some dir,
              dirListing := some (".." :: sortStrings
                (partitionNames isdir research true dir pat names).1),
              rows := some [], aborted := false, statusCount := some 0 }) ∧
    (∀ (research : String → String → Except Unit Bool)
        (score : String → String → Nat) (fe : Bool) (path pat : String)
        (fuzzy : Bool) (e : String) (es : List String),
        (∀ n, research pat n = Except.error ()) →
        start_scan research score fe path pat true fuzzy
            (Except.ok (e :: es))
          = { published := none, log := [] }) := by
  constructor
  · intro isdir research gs gm dir pat names h
    have hfiles := partitionNames_regex_error_files isdir research dir pat h names
    simp [refresh_listing, hfiles, sortStrings, buildRows]
  · intro research score fe path pat fuzzy e es h
    simp [start_scan, collectNR, scanEntryMatches, h (basename e)]

/-- Claim C3 witness: the amended statement at concrete inputs — a dialog
refresh over a file and a subdirectory, and a scan over two entries, both
with an always-failing regex. -/
theorem claim3_witness :
    refresh_listing (Except.ok ["a", "sub"]) (fun p => p == "d/sub")
        (fun _ _ => Except.error ()) (fun _ => Except.ok 1)
        (fun _ => Except.ok 2) true "d" "("
      = { dirError := false, newDirectory := some "d",
          dirListing := some (".." :: sortStrings
            (partitionNames (fun p => p == "d/sub")
              (fun _ _ => Except.error ()) true "d" "(" ["a", "sub"]).1),
          rows := some [], aborted := false, statusCount := some 0 } ∧
    start_scan (fun _ _ => Except.error ()) (fun _ _ => 0) false "d" "("
        true true (Except.ok ["d/a", "d/b"])
      = { published := none, log := [] } :=
  ⟨claim3_theorem.1 (fun p => p == "d/sub") (fun _ _ => Except.error ())
      (fun _ => Except.ok 1) (fun _ => Except.ok 2) "d" "(" ["a", "sub"]
      (fun _ => rfl),
    claim3_theorem.2 (fun _ _ => Except.error ()) (fun _ _ => 0) false "d"
      "(" true "d/a" ["d/b"] (fun _ => rfl)⟩

/-! ## Claim C4 : per-entry stat errors during a scan -/

/-- Claim C4 counterexample: a dialog refresh of two matched files where the
mtime stat of the first raises.  The first entry is not merely dropped: the
whole listing update aborts — the remaining entry `y` is never processed,
the row set stays empty and the status line is not updated — so a single
per-entry stat error does fail the rest of the scan, contrary to the
claim. -/
theorem claim4_counterexample :
    refresh_listing (Except.ok ["x", "y"]) (fun _ => false)
        (fun _ _ => Except.ok false) (fun _ => Except.ok 1)
        (fun p => if p == "d/x" then Except.error () else Except.ok 5)
        false "d" "*"
      = { dirError := false, newDirectory := some "d",
          dirListing := some [".."], rows := some [], aborted := true,
          statusCount := none } := by
  decide

/-- Claim C4 as amended: per-entry error handling is asymmetric rather than
skip-and-continue.  In the dialog refresh a size-stat error keeps the entry
(with size 0) instead of removing it, while an mtime-stat error aborts the
rest of the listing; in `_populate` a stat error on an uncached entry
likewise aborts the rest of the population, leaving the cache unchanged. -/
theorem claim4_theorem :
    (∀ (gs gm : String → Except Unit Nat) (dir n : String)
        (ns : List String) (m : Nat),
        gs (osPathJoin dir n) = Except.error () →
        gm (osPathJoin dir n) = Except.ok m →
        buildRows gs gm dir (n :: ns)
          = (⟨n, 0, m⟩ :: (buildRows gs gm dir ns).1,
             (buildRows gs gm dir ns).2)) ∧
    (∀ (gs gm : String → Except Unit Nat) (dir n : String)
        (ns : List String),
        gm (osPathJoin dir n) = Except.error () →
        buildRows gs gm dir (n :: ns) = ([], true)) ∧
    (∀ (stat : String → Except Unit (Nat × Nat)) (cache : Cache)
        (fp : String) (fps : List String),
        cacheGet cache fp = none → stat fp = Except.error () →
        populate stat cache (fp :: fps) = ([], cache, true)) := by
  refine ⟨?_, ?_, ?_⟩
  · intro gs gm dir n ns m hgs hgm
    simp [buildRows, hgs, hgm]
  · intro gs gm dir n ns hgm
    simp [buildRows, hgm]
  · intro stat cache fp fps hc hs
    simp [populate, resolveMeta, hc, hs]

/-- Claim C4 witness: the amended statement at concrete inputs — a size
error kept with size 0, an mtime error aborting, and a `_populate` stat
error aborting. -/
theorem claim4_witness :
    buildRows (fun _ => Except.error ()) (fun _ => Except.ok 9) "d" ["x"]
      = ([⟨"x", 0, 9⟩], false) ∧
    buildRows (fun _ => Except.ok 1) (fun _ => Except.error ()) "d"
        ["x", "y"] = ([], true) ∧
    populate (fun _ => Except.error ()) [] ["d/x"] = ([], [], true) := by
  refine ⟨?_, ?_, ?_⟩
  · have h := claim4_theorem.1 (fun _ => Except.error ())
      (fun _ => Except.ok 9) "d" "x" [] 9 rfl rfl
    rw [h]
    rfl
  · exact claim4_theorem.2.1 (fun _ => Except.ok 1)
      (fun _ => Except.error ()) "d" "x" ["y"] rfl
  · exact claim4_theorem.2.2 (fun _ => Except.error ()) [] "d/x" [] rfl rfl

/-! ## Claim C7 : glob-mode matching -/

/-- Claim C7: a non-recursive glob-mode scan over a directory holding
exactly `a.txt`, `b.log`, `c.txt` with pattern `*.txt` yields exactly
`a.txt` and `c.txt`; `fnmatch` gives the claimed example verdicts for
`report.txt`; and in general the glob matcher coincides with the
declarative standard wildcard semantics `TokSem` on every pattern and
name. -/
theorem claim7_theorem :
    (refresh_listing (Except.ok ["a.txt", "b.log", "c.txt"])
        (fun _ => false) (fun _ _ => Except.ok false) (fun _ => Except.ok 3)
        (fun _ => Except.ok 7) false "d" "*.txt").rows
      = some [⟨"a.txt", 3, 7⟩, ⟨"c.txt", 3, 7⟩] ∧
    fnmatch "report.txt" "*.txt" = true ∧
    fnmatch "report.txt" "*.csv" = false ∧
    (∀ pat name : String,
      fnmatch name pat = true ↔ TokSem (tokenize pat.data) name.data) :=
  ⟨by decide, by decide, by decide,
    fun pat name => tokMatch_iff_tokSem (tokenize pat.data) name.data⟩

/-! ## Claim C8 : fuzzy mode -/

/-- Claim C8 counterexample: a fuzzy-mode scan with the backend available
publishes the entry `qqqq` for pattern `*`, although the similarity score
here is 0 (rapidfuzz's partial_ratio of two strings with no character in
common is 0) and 0 does not exceed the threshold 60.  Matching is therefore
not equivalent to score-above-threshold: the loop falls through to glob
matching. -/
theorem claim8_counterexample :
    (start_scan (fun _ _ => Except.ok false) (fun _ _ => 0) true "d" "*"
        false true (Except.ok ["qqqq"])).published = some ["qqqq"] ∧
    ¬ ((0 : Nat) > 60) :=
  ⟨by decide, by decide⟩

/-- Claim C8 as amended: with the fuzzy backend available, a fuzzy-mode
entry is published iff its score exceeds the threshold or its basename
matches the glob pattern (fuzzy augments glob rather than replacing it);
with the backend unavailable, every request behaves exactly as the same
request in glob mode. -/
theorem claim8_theorem :
    (∀ (research : String → String → Except Unit Bool)
        (score : String → String → Nat) (path pattern : String)
        (entries : List String),
        start_scan research score true path pattern false true
            (Except.ok entries)
          = { published := some (entries.filter (fun e =>
                decide (score pattern (basename e) > 60)
                  || fnmatch (basename e) pattern)),
              log := [scanLogMsg (entries.filter (fun e =>
                decide (score pattern (basename e) > 60)
                  || fnmatch (basename e) pattern)).length path] }) ∧
    (∀ (research : String → String → Except Unit Bool)
        (score : String → String → Nat) (path pattern : String)
        (useRegex fuzzy : Bool) (ls : Except Unit (List String)),
        start_scan research score false path pattern useRegex fuzzy ls
          = start_scan research score false path pattern useRegex false ls) := by
  constructor
  · intro research score path pattern entries
    have hfg : ∀ e : String,
        scanEntryMatches research score true false true pattern (basename e)
          = Except.ok (decide (score pattern (basename e) > 60)
              || fnmatch (basename e) pattern) := by
      intro e
      by_cases hs : score pattern (basename e) > 60
      · simp [scanEntryMatches, hs]
      · simp [scanEntryMatches, hs]
    have hcoll := collectNR_filter
      (scanEntryMatches research score true false true pattern)
      (fun e => decide (score pattern (basename e) > 60)
        || fnmatch (basename e) pattern) hfg entries
    simp only [start_scan, hcoll]
  · intro research score path pattern useRegex fuzzy ls
    cases ls with
    | error e => rfl
    | ok entries =>
      have heq : ∀ s : String,
          scanEntryMatches research score false useRegex fuzzy pattern s
            = scanEntryMatches research score false useRegex false pattern s := by
        intro s
        simp only [scanEntryMatches]
        cases (if useRegex then research pattern s else Except.ok false) with
        | error e => rfl
        | ok b =>
          cases b with
          | true => rfl
          | false => simp
      have hc := collectNR_congr
        (scanEntryMatches research score false useRegex fuzzy pattern)
        (scanEntryMatches research score false useRegex false pattern)
        heq entries
      simp only [start_scan, hc]

/-! ## Claim C9 : ordering of published results -/

/-- Claim C9 counterexample: a dialog refresh over a directory whose
traversal (first-discovered) order is `c.txt` then `a.txt` displays
`a.txt` before `c.txt` — the listing sorts the matched names instead of
preserving first-discovered order, contrary to the claim. -/
theorem claim9_counterexample :
    (refresh_listing (Except.ok ["c.txt", "a.txt"]) (fun _ => false)
        (fun _ _ => Except.ok false) (fun _ => Except.ok 1)
        (fun _ => Except.ok 2) false "d" "*").rows
      = some [⟨"a.txt", 1, 2⟩, ⟨"c.txt", 1, 2⟩] ∧
    (["a.txt", "c.txt"] : List String) ≠ ["c.txt", "a.txt"] :=
  ⟨by decide, by decide⟩

/-- Claim C9 as amended: `start_scan` publishes its matches as a
subsequence of the enumeration order (no reordering), but the dialog's
refresh does not preserve traversal order: on a refresh that completes,
the displayed rows are the matched names sorted lexicographically. -/
theorem claim9_theorem :
    (∀ (research : String → String → Except Unit Bool)
        (score : String → String → Nat) (fe : Bool) (path pattern : String)
        (useRegex fuzzy : Bool) (entries r lg : List String),
        start_scan research score fe path pattern useRegex fuzzy
            (Except.ok entries)
          = { published := some r, log := lg } → r.Sublist entries) ∧
    (∀ (names : List String) (isdir : String → Bool)
        (research : String → String → Except Unit Bool)
        (gs gm : String → Except Unit Nat) (useRegex : Bool)
        (dir pat : String) (rows : List FileRow),
        (refresh_listing (Except.ok names) isdir research gs gm useRegex
            dir pat).rows = some rows →
        (refresh_listing (Except.ok names) isdir research gs gm useRegex
            dir pat).aborted = false →
        rows.map FileRow.name
            = sortStrings
                (partitionNames isdir research useRegex dir pat names).2 ∧
          (rows.map FileRow.name).Pairwise StrLe) := by
  constructor
  · intro research score fe path pattern useRegex fuzzy entries r lg h
    cases hc : collectNR
        (scanEntryMatches research score fe useRegex fuzzy pattern)
        entries with
    | error err =>
      simp only [start_scan, hc] at h
      exact Option.noConfusion (congrArg ScanOutcome.published h)
    | ok results =>
      simp only [start_scan, hc] at h
      have h2 := congrArg ScanOutcome.published h
      simp only [Option.some.injEq] at h2
      rw [← h2]
      exact collectNR_sublist _ entries results hc
  · intro names isdir research gs gm useRegex dir pat rows hrows haborted
    simp only [refresh_listing, Option.some.injEq] at hrows haborted
    constructor
    · rw [← hrows]
      exact buildRows_names gs gm dir _ haborted
    · rw [← hrows, buildRows_names gs gm dir _ haborted]
      exact sortStrings_pairwise _

/-- Claim C9 witness: the amended statement applied at concrete inputs — a
scan over `g`, `f`, `x` with pattern `f*` publishing `[f]` (a subsequence),
and a refresh over `b`, `a`, `c` whose displayed names come out sorted. -/
theorem claim9_witness :
    (["f"] : List String).Sublist ["g", "f", "x"] ∧
    (([⟨"a", 1, 2⟩, ⟨"b", 1, 2⟩, ⟨"c", 1, 2⟩] : List FileRow).map
          FileRow.name
        = sortStrings (partitionNames (fun _ => false)
            (fun _ _ => Except.ok false) false "d" "*"
            ["b", "a", "c"]).2 ∧
      (([⟨"a", 1, 2⟩, ⟨"b", 1, 2⟩, ⟨"c", 1, 2⟩] : List FileRow).map
          FileRow.name).Pairwise StrLe) :=
  ⟨claim9_theorem.1 (fun _ _ => Except.ok false) (fun _ _ => 0) true "d"
      "f*" false false ["g", "f", "x"] ["f"] [scanLogMsg 1 "d"] rfl,
    claim9_theorem.2 ["b", "a", "c"] (fun _ => false)
      (fun _ _ => Except.ok false) (fun _ => Except.ok 1)
      (fun _ => Except.ok 2) false "d" "*"
      [⟨"a", 1, 2⟩, ⟨"b", 1, 2⟩, ⟨"c", 1, 2⟩] (by decide) (by decide)⟩

/-! ## Claim C10 : deletion safety -/

/-- Claim C10: `delete_command` removes nothing unless the confirmation
dialog is accepted; every path handed to `os.remove` was an existing
regular file at removal time (hence a regular file of the initial
filesystem — a selected path that is a directory or that no longer exists
is never removed, and directories survive); and an error removing one file
does not stop the rest: every confirmed, selected regular file on which
`os.remove` does not fail is gone afterwards, whatever happens to the other
entries. -/
theorem claim10_theorem (selected : List String) (confirm : Bool)
    (removeFails : String → Bool) (dir : String) (fs : FileSys) :
    (confirm = false →
      delete_command selected confirm removeFails dir fs = ⟨fs, [], []⟩) ∧
    (∀ p, p ∈ (delete_command selected confirm removeFails dir fs).attempted →
      fsLookup fs p = some NodeKind.file) ∧
    (∀ p, fsLookup fs p = some NodeKind.dir →
      fsLookup (delete_command selected confirm removeFails dir fs).fs p
        = some NodeKind.dir) ∧
    (∀ p, fsLookup fs p = some NodeKind.file →
      (∃ name ∈ selected, osPathJoin dir name = p) →
      confirm = true → removeFails p = false →
      fsLookup (delete_command selected confirm removeFails dir fs).fs p
        = none) := by
  refine ⟨?_, ?_, ?_, ?_⟩
  · intro hc
    by_cases he : selected.isEmpty <;> simp [delete_command, hc, he]
  · intro p hp
    by_cases he : selected.isEmpty
    · simp [delete_command, he] at hp
    · by_cases hc : confirm
      · have hrw : delete_command selected confirm removeFails dir fs
            = deleteLoop removeFails dir fs selected := by
          simp [delete_command, he, hc]
        rw [hrw] at hp
        exact deleteLoop_attempted_file removeFails dir p selected fs hp
      · simp [delete_command, he, hc] at hp
  · intro p hdir
    by_cases he : selected.isEmpty
    · simpa [delete_command, he] using hdir
    · by_cases hc : confirm
      · have hrw : delete_command selected confirm removeFails dir fs
            = deleteLoop removeFails dir fs selected := by
          simp [delete_command, he, hc]
        rw [hrw]
        exact deleteLoop_dir_preserved removeFails dir p selected fs hdir
      · simpa [delete_command, he, hc] using hdir
  · intro p hfile hex hc hrf
    rcases hex with ⟨name, hmem, hjoin⟩
    have he : ¬ selected.isEmpty = true := by
      cases selected with
      | nil => exact absurd hmem (List.not_mem_nil name)
      | cons a l => simp
    have hrw : delete_command selected confirm removeFails dir fs
        = deleteLoop removeFails dir fs selected := by
      simp [delete_command, he, hc]
    rw [hrw]
    exact deleteLoop_removes removeFails dir p hrf selected fs hfile
      ⟨name, hmem, hjoin⟩

/-- Claim C10 witness: the theorem applied at a concrete filesystem with a
file `d/a` on which removal fails, a directory `d/sub`, a file `d/b`, and a
stale selected name `ghost`: without confirmation nothing changes; with
confirmation `d/b` is removed even though removing `d/a` failed first, and
the directory survives. -/
theorem claim10_witness :
    delete_command ["a", "sub", "b", "ghost"] false (fun p => p == "d/a")
        "d" [("d/a", NodeKind.file), ("d/sub", NodeKind.dir),
          ("d/b", NodeKind.file)]
      = ⟨[("d/a", NodeKind.file), ("d/sub", NodeKind.dir),
          ("d/b", NodeKind.file)], [], []⟩ ∧
    fsLookup (delete_command ["a", "sub", "b", "ghost"] true
        (fun p => p == "d/a") "d"
        [("d/a", NodeKind.file), ("d/sub", NodeKind.dir),
          ("d/b", NodeKind.file)]).fs "d/b" = none ∧
    fsLookup (delete_command ["a", "sub", "b", "ghost"] true
        (fun p => p == "d/a") "d"
        [("d/a", NodeKind.file), ("d/sub", NodeKind.dir),
          ("d/b", NodeKind.file)]).fs "d/sub" = some NodeKind.dir :=
  ⟨( claim10_theorem ["a", "sub", "b", "ghost"] false (fun p => p == "d/a")
      "d" [("d/a", NodeKind.file), ("d/sub", NodeKind.dir),
        ("d/b", NodeKind.file)]).1 rfl,
    ( claim10_theorem ["a", "sub", "b", "ghost"] true (fun p => p == "d/a")
      "d" [("d/a", NodeKind.file), ("d/sub", NodeKind.dir),
        ("d/b", NodeKind.file)]).2.2.2 "d/b" (by decide)
      ⟨"b", by decide, by decide⟩ rfl (by decide),
    ( claim10_theorem ["a", "sub", "b", "ghost"] true (fun p => p == "d/a")
      "d" [("d/a", NodeKind.file), ("d/sub", NodeKind.dir),
        ("d/b", NodeKind.file)]).2.2.1 "d/sub" (by decide)⟩
